import Mathlib

/-!
Shallow embedding of `budget.py`: the `Category` class (deposit, withdraw,
transfer, check_funds, the string report) together with the class attribute
`Category.total_withdrawn`, and the `create_spend_chart` renderer with its
nested `build_array` and `build_string` helpers.

Modelling conventions:
* Python floats are modelled as exact rationals (ℚ).
* The class attribute `Category.total_withdrawn` is threaded explicitly as
  part of a `BankState`; the categories of the process are a list and
  operations address them by position.  Python works on object references,
  so an out-of-range index corresponds to no real program run; the state
  operations leave the state unchanged in that case.
* Fallible code (`max` of an empty sequence raising ValueError, division by
  a zero `total_withdrawn` raising ZeroDivisionError) is modelled with
  `Except String`.
* Decimal rendering of numbers (`str`, `f"{x:.2f}"`) is modelled by
  executable digit functions below; the two-decimal format rounds with
  `round` (half away from the floor), a modelling choice that only differs
  from CPython on exact ties and on negative values rounding to zero.
-/

/-- The decimal digit character of `n % 10`. -/
def digitOf (n : Nat) : Char := "0123456789".data.getD (n % 10) '0'

/-- Decimal digit list of a natural number, with explicit fuel so that the
recursion is structural and kernel-reducible.  Fuel `n + 1` is always
sufficient. -/
def natCharsAux : Nat → Nat → List Char
  | 0, _ => []
  | fuel + 1, n =>
    if n < 10 then [digitOf n]
    else natCharsAux fuel (n / 10) ++ [digitOf (n % 10)]

/-- Decimal string of a natural number, as Python `str` renders it. -/
def natStr (n : Nat) : String := String.mk (natCharsAux (n + 1) n)

/-- Decimal string of an integer, as Python `str` renders it. -/
def intStr (i : Int) : String := (if i < 0 then "-" else "") ++ natStr i.natAbs

/-- Executable rendering of a rational, standing in for Python `str` on the
float `balance` in the `Total:` line.  The exact digits of `str(float)` are
outside the model; the claims only use that the rendering is a nonempty
newline-free token. -/
def ratStr (q : ℚ) : String :=
  if q.den = 1 then intStr q.num else intStr q.num ++ "/" ++ natStr q.den

/-- Python `s[0:n]` on strings: the first `n` characters. -/
def pySlice (s : String) (n : Nat) : String := String.mk (s.data.take n)

/-- Python `str.ljust(w, fill)`. -/
def pyLjust (s : String) (w : Nat) (fill : Char) : String :=
  s ++ String.mk (List.replicate (w - s.length) fill)

/-- Python `str.rjust(w, fill)`. -/
def pyRjust (s : String) (w : Nat) (fill : Char) : String :=
  String.mk (List.replicate (w - s.length) fill) ++ s

/-- Python `str.center(w, fill)`, including the CPython left-margin formula
`marg / 2 + (marg & w & 1)`. -/
def pyCenter (s : String) (w : Nat) (fill : Char) : String :=
  String.mk (List.replicate ((w - s.length) / 2 + ((w - s.length) &&& w &&& 1)) fill) ++ s ++
    String.mk (List.replicate ((w - s.length) - ((w - s.length) / 2 + ((w - s.length) &&& w &&& 1))) fill)

/-- Python `str.capitalize()`: first character upper-cased, the rest
lower-cased. -/
def pyCapitalize (s : String) : String :=
  match s.data with
  | [] => ""
  | c :: cs => String.mk (c.toUpper :: cs.map Char.toLower)

/-- Python `f"{x:.2f}"` on the exact rational model: two-decimal fixed-point
rendering. -/
def formatFixed2 (q : ℚ) : String :=
  (if round (q * 100) < 0 then "-" else "") ++
    natStr ((round (q * 100)).natAbs / 100) ++ "." ++
    (if (round (q * 100)).natAbs % 100 < 10 then "0" else "") ++
    natStr ((round (q * 100)).natAbs % 100)

/-- Concatenation of a list of strings, the model of building a string by
repeated `+=` in a loop. -/
def concatAll : List String → String
  | [] => ""
  | s :: rest => s ++ concatAll rest

/-- A ledger record `{"amount": ..., "description": ...}`. -/
structure Entry where
  amount : ℚ
  description : String
deriving Repr, DecidableEq

/-- The per-instance fields of `Category`: `name`, `balance`,
`amount_withdrawn`, `ledger`. -/
structure Cat where
  name : String
  balance : ℚ
  amount_withdrawn : ℚ
  ledger : List Entry
deriving Repr, DecidableEq

/-- `Category.__init__`: fresh category with zero balance, zero withdrawn
total and an empty ledger. -/
def mkCategory (category_name : String) : Cat :=
  { name := category_name, balance := 0, amount_withdrawn := 0, ledger := [] }

/-- `Category.check_funds`: `False if amount > self.balance else True`. -/
def check_funds (c : Cat) (amount : ℚ) : Bool :=
  if amount > c.balance then false else true

/-- `Category.deposit`: unconditionally add to the balance and append the
record to the ledger. -/
def deposit (c : Cat) (amount : ℚ) (description : String) : Cat :=
  { c with balance := c.balance + amount,
           ledger := c.ledger ++ [{ amount := amount, description := description }] }

/-- `Category.withdraw`: on a passing funds check, decrease the balance,
increase both the per-category and the class-level withdrawn totals, append
the negated amount to the ledger and return `true`; otherwise change nothing
and return `false`.  The class attribute `Category.total_withdrawn` is the
second component. -/
def withdraw (c : Cat) (total : ℚ) (amount : ℚ) (description : String) :
    Cat × ℚ × Bool :=
  if check_funds c amount then
    ({ c with balance := c.balance - amount,
              amount_withdrawn := c.amount_withdrawn + amount,
              ledger := c.ledger ++ [{ amount := -amount, description := description }] },
     total + amount, true)
  else (c, total, false)

/-- The category produced by a successful `withdraw` (proof abbreviation for
the first component of `withdraw` on a passing funds check). -/
def catAfterWithdraw (c : Cat) (a : ℚ) (d : String) : Cat :=
  { c with balance := c.balance - a,
           amount_withdrawn := c.amount_withdrawn + a,
           ledger := c.ledger ++ [{ amount := -a, description := d }] }

/-- `Category.get_balance`. -/
def get_balance (c : Cat) : ℚ := c.balance

/-- One line of the ledger listing in `Category.__str__`: the description
sliced to 23 characters and left-justified, the two-decimal amount sliced to
7 characters and right-justified, then a newline. -/
def entryLine (e : Entry) : String :=
  pyLjust (pySlice e.description 23) 23 ' ' ++
    pyRjust (pySlice (formatFixed2 e.amount) 7) 7 ' ' ++ "\n"

/-- `Category.__str__`: the name centered to 30 characters with `*`, one
line per ledger record, and a final `Total:` line. -/
def strCategory (c : Cat) : String :=
  pyCenter c.name 30 '*' ++ "\n" ++
    concatAll (c.ledger.map entryLine) ++
    "Total: " ++ ratStr c.balance

/-- Placeholder category used by positional lookup outside the list; no
operation ever stores it. -/
def noCat : Cat := { name := "", balance := 0, amount_withdrawn := 0, ledger := [] }

/-- The process state: every live `Category` instance plus the class
attribute `Category.total_withdrawn`. -/
structure BankState where
  cats : List Cat
  total_withdrawn : ℚ
deriving Repr, DecidableEq

/-- The category at position `i` of the state. -/
def catAt (s : BankState) (i : Nat) : Cat := s.cats.getD i noCat

/-- `deposit` on the category at position `i`. -/
def doDeposit (s : BankState) (i : Nat) (amount : ℚ) (description : String) :
    BankState :=
  if i < s.cats.length then
    { s with cats := s.cats.set i (deposit (catAt s i) amount description) }
  else s

/-- `withdraw` on the category at position `i`, also returning the boolean
result. -/
def doWithdraw (s : BankState) (i : Nat) (amount : ℚ) (description : String) :
    BankState × Bool :=
  if i < s.cats.length then
    ({ cats := s.cats.set i (withdraw (catAt s i) s.total_withdrawn amount description).1,
       total_withdrawn := (withdraw (catAt s i) s.total_withdrawn amount description).2.1 },
     (withdraw (catAt s i) s.total_withdrawn amount description).2.2)
  else (s, false)

/-- `Category.transfer` from position `i` to position `j`: on a passing
funds check, `withdraw` from the source with description
`"Transfer to <target name>"` and then `deposit` into the target with
description `"Transfer from <source name>"` (on the state the withdrawal
produced), returning `true`; otherwise `false` with no mutation.  Names are
immutable, so reading the source name from the pre-state matches Python. -/
def doTransfer (s : BankState) (i j : Nat) (amount : ℚ) : BankState × Bool :=
  if i < s.cats.length ∧ j < s.cats.length then
    if check_funds (catAt s i) amount then
      (doDeposit (doWithdraw s i amount ("Transfer to " ++ (catAt s j).name)).1
        j amount ("Transfer from " ++ (catAt s i).name), true)
    else (s, false)
  else (s, false)

/-- One client call into the `Category` API. -/
inductive Op where
  | deposit (i : Nat) (amount : ℚ) (description : String)
  | withdraw (i : Nat) (amount : ℚ) (description : String)
  | transfer (i j : Nat) (amount : ℚ)
deriving Repr, DecidableEq

/-- The amount argument of an operation. -/
def opAmount : Op → ℚ
  | .deposit _ a _ => a
  | .withdraw _ a _ => a
  | .transfer _ _ a => a

/-- An operation addresses only live categories. -/
def opValid (s : BankState) : Op → Prop
  | .deposit i _ _ => i < s.cats.length
  | .withdraw i _ _ => i < s.cats.length
  | .transfer i j _ => i < s.cats.length ∧ j < s.cats.length

/-- Effect of one operation on the process state. -/
def step (s : BankState) : Op → BankState
  | .deposit i a d => doDeposit s i a d
  | .withdraw i a d => (doWithdraw s i a d).1
  | .transfer i j a => (doTransfer s i j a).1

/-- Effect of a sequence of operations. -/
def run (s : BankState) (ops : List Op) : BankState := ops.foldl step s

/-- Process start: freshly constructed categories,
`Category.total_withdrawn = 0`. -/
def initState (names : List String) : BankState :=
  { cats := names.map mkCategory, total_withdrawn := 0 }

/-- Sum of the ledger record amounts. -/
def ledgerSum (l : List Entry) : ℚ := (l.map Entry.amount).sum

/-- The balance of a category equals the sum of its ledger amounts. -/
def balancedCat (c : Cat) : Prop := c.balance = ledgerSum c.ledger

/-- Claim-side count of ledger growth: per position `i`, the number of
deposits performed on it (including transfer inflows) and the number of
successful withdrawals from it (including transfer outflows), evaluated
along the run because success depends on the state at call time. -/
def countsFor (i : Nat) : BankState → List Op → Nat × Nat
  | _, [] => (0, 0)
  | s, op :: rest =>
    match op with
    | .deposit j _ _ =>
      ((if j = i then 1 else 0) + (countsFor i (step s op) rest).1,
       (countsFor i (step s op) rest).2)
    | .withdraw j a d =>
      ((countsFor i (step s op) rest).1,
       (if j = i ∧ (doWithdraw s j a d).2 = true then 1 else 0) +
         (countsFor i (step s op) rest).2)
    | .transfer j k a =>
      ((if k = i ∧ (doTransfer s j k a).2 = true then 1 else 0) +
         (countsFor i (step s op) rest).1,
       (if j = i ∧ (doTransfer s j k a).2 = true then 1 else 0) +
         (countsFor i (step s op) rest).2)

/-- `len(max([obj.name for obj in categories], key=len))`: the length of the
longest category name (the Python call raises on an empty list; the guard
lives in `build_array`). -/
def longestName (cats : List Cat) : Nat :=
  (cats.map (fun c => c.name.length)).foldl max 0

/-- `(math.floor((amount_withdrawn / total_withdrawn) * 100) // 10) * 10`
from `build_array`, with Python floor division `//` as `Int.fdiv`. -/
def bucketOf (aw tw : ℚ) : ℤ := (Int.fdiv ⌊aw / tw * 100⌋ 10) * 10

/-- Python slice-start normalisation against an axis of length `len`:
negative starts count from the end and are clamped at 0, positive starts are
clamped at `len`. -/
def normStart (len s : ℤ) : ℤ := if s < 0 then max (len + s) 0 else min s len

/-- The `numpy` object array: a cell is `none` (numpy `None`, rendered as a
space) or the string the cell renders to. -/
def Arr := Nat → Nat → Option String

/-- `np.empty(..., dtype=object)`: every cell `None`. -/
def emptyArr : Arr := fun _ _ => none

/-- Y-axis labels: rows 0..10 of column 0 hold 100, 90, ..., 0. -/
def withYAxis (a : Arr) : Arr := fun r c =>
  if c = 0 ∧ r ≤ 10 then some (natStr (100 - 10 * r)) else a r c

/-- Pipe separators: rows 0..10 of column 1. -/
def withPipes (a : Arr) : Arr := fun r c =>
  if c = 1 ∧ r ≤ 10 then some "|" else a r c

/-- Dash separators: row 11 from column 2 on. -/
def withDashes (ncols : Nat) (a : Arr) : Arr := fun r c =>
  if r = 11 ∧ 2 ≤ c ∧ c < ncols then some "-" else a r c

/-- The writes of one loop iteration of `build_array` for the category at
position `k` (bar column `3 * (k + 1)`): the marker slice
`[10 - percentage_spent // 10 : 11]` of the column set to `"o"`, and the
capitalised name written one character per row from row 12.  The slice stop
11 is already within the axis length `L + 12`, so only the start needs
normalising.  The marker rows (below 11) and the name rows (from 12) are
disjoint, so both writes live in one case split. -/
def withCategory (L : Nat) (tw : ℚ) (k : Nat) (c : Cat) (a : Arr) : Arr :=
  fun r cc =>
    if cc = 3 * (k + 1) ∧
        normStart ((L : ℤ) + 12) (10 - Int.fdiv (bucketOf c.amount_withdrawn tw) 10) ≤ (r : ℤ) ∧
        r < 11 then
      some "o"
    else if cc = 3 * (k + 1) ∧ 12 ≤ r ∧
        r < 12 + min (pyCapitalize c.name).length L then
      some (String.singleton ((pyCapitalize c.name).data.getD (r - 12) ' '))
    else a r cc

/-- The category loop of `build_array`, one `withCategory` per category in
order, `k` tracking the position. -/
def applyAll (L : Nat) (tw : ℚ) : Nat → List Cat → Arr → Arr
  | _, [], a => a
  | k, c :: rest, a => applyAll L tw (k + 1) rest (withCategory L tw k c a)

/-- `build_array`: fails like Python `max` on an empty category list, fails
like Python float division when `Category.total_withdrawn` is zero, and
otherwise produces the populated array. -/
def build_array (cats : List Cat) (tw : ℚ) : Except String Arr :=
  if cats.isEmpty then .error "ValueError: max() arg is an empty sequence"
  else if tw = 0 then .error "ZeroDivisionError: float division by zero"
  else
    .ok (applyAll (longestName cats) tw 0 cats
      (withDashes (3 * cats.length + 3) (withPipes (withYAxis emptyArr))))

/-- `f"{cell}"` with `None` rendered as a single space. -/
def renderCell : Option String → String
  | some s => s
  | none => " "

/-- One chart row of `build_string`: at column 0 the label padding (one
space for every row after the first, one more from row 10 on), then every
cell in order. -/
def rowText (arr : Arr) (i ncols : Nat) : String :=
  concatAll ((List.range ncols).map (fun j =>
    (if j = 0 then
        (if 0 < i then " " else "") ++ (if 10 ≤ i then " " else "")
      else "") ++ renderCell (arr i j)))

/-- `build_string`: the title line, then the rows separated (not terminated)
by newlines. -/
def build_string (arr : Arr) (nrows ncols : Nat) : String :=
  "Percentage spent by category\n" ++
    concatAll ((List.range nrows).map (fun i =>
      rowText arr i ncols ++ (if i + 1 < nrows then "\n" else "")))

/-- `create_spend_chart`: build the array, then linearise it.  The array has
`longest_name + 12` rows and `3 * len(categories) + 3` columns. -/
def create_spend_chart (cats : List Cat) (tw : ℚ) : Except String String :=
  (build_array cats tw).map (fun arr =>
    build_string arr (longestName cats + 12) (3 * cats.length + 3))

/-! ### Helper lemmas about list access and state shape -/

theorem getD_set_self {α : Type} : ∀ (l : List α) (i : Nat) (a d : α),
    i < l.length → (l.set i a).getD i d = a := by
  intro l
  induction l with
  | nil => intro i a d h; simp at h
  | cons x xs ih =>
    intro i a d h
    cases i with
    | zero => rfl
    | succ n => exact ih n a d (by simpa using h)

theorem getD_set_ne {α : Type} : ∀ (l : List α) (i j : Nat) (a d : α),
    i ≠ j → (l.set i a).getD j d = l.getD j d := by
  intro l
  induction l with
  | nil => intro i j a d _; simp
  | cons x xs ih =>
    intro i j a d h
    cases i with
    | zero =>
      cases j with
      | zero => exact absurd rfl h
      | succ m => rfl
    | succ n =>
      cases j with
      | zero => rfl
      | succ m => exact ih n m a d (fun he => h (by rw [he]))

theorem getD_mem {α : Type} : ∀ (l : List α) (i : Nat) (d : α),
    i < l.length → l.getD i d ∈ l := by
  intro l
  induction l with
  | nil => intro i d h; simp at h
  | cons x xs ih =>
    intro i d h
    cases i with
    | zero => exact List.mem_cons_self x xs
    | succ n => exact List.mem_cons_of_mem x (ih n d (by simpa using h))

theorem length_doDeposit (s : BankState) (i : Nat) (a : ℚ) (d : String) :
    (doDeposit s i a d).cats.length = s.cats.length := by
  unfold doDeposit
  split <;> simp

theorem length_doWithdraw (s : BankState) (i : Nat) (a : ℚ) (d : String) :
    (doWithdraw s i a d).1.cats.length = s.cats.length := by
  unfold doWithdraw
  split <;> simp

theorem length_doTransfer (s : BankState) (i j : Nat) (a : ℚ) :
    (doTransfer s i j a).1.cats.length = s.cats.length := by
  unfold doTransfer
  split
  · split
    · simp [length_doDeposit, length_doWithdraw]
    · rfl
  · rfl

theorem length_step (s : BankState) (op : Op) :
    (step s op).cats.length = s.cats.length := by
  cases op with
  | deposit i a d => exact length_doDeposit s i a d
  | withdraw i a d => exact length_doWithdraw s i a d
  | transfer i j a => exact length_doTransfer s i j a

theorem length_run (s : BankState) (ops : List Op) :
    (run s ops).cats.length = s.cats.length := by
  induction ops generalizing s with
  | nil => rfl
  | cons op rest ih =>
    have h : run s (op :: rest) = run (step s op) rest := rfl
    rw [h, ih, length_step]

/-! ### C1: the withdraw contract -/

/-- C1: `withdraw` returns false exactly when the amount exceeds the balance
at call time; a false return leaves the category (balance, withdrawn total,
ledger) and the class total unchanged; at the boundary `amount = balance`
it returns true and zeroes the balance. -/
theorem C1_withdraw (c : Cat) (total amount : ℚ) (description : String) :
    ((withdraw c total amount description).2.2 = false ↔ amount > c.balance)
    ∧ ((withdraw c total amount description).2.2 = false →
        (withdraw c total amount description).1 = c ∧
        (withdraw c total amount description).2.1 = total)
    ∧ (amount = c.balance →
        (withdraw c total amount description).2.2 = true ∧
        (withdraw c total amount description).1.balance = 0) := by
  by_cases h : amount > c.balance
  · refine ⟨by simp [withdraw, check_funds, h], by simp [withdraw, check_funds, h], ?_⟩
    intro he
    rw [he] at h
    exact absurd h (lt_irrefl _)
  · refine ⟨by simp [withdraw, check_funds, h], by simp [withdraw, check_funds, h], ?_⟩
    intro he
    refine ⟨by simp [withdraw, check_funds, h], ?_⟩
    simp [withdraw, check_funds, h, he]

/-- Witness for C1 at a category with balance 5: a withdrawal of 7 fails and
mutates nothing, a withdrawal of 5 succeeds and zeroes the balance. -/
theorem C1_withdraw_w :
    ((withdraw ⟨"food", 5, 0, []⟩ 2 7 "").2.2 = false ∧
      (withdraw ⟨"food", 5, 0, []⟩ 2 7 "").1 = ⟨"food", 5, 0, []⟩ ∧
      (withdraw ⟨"food", 5, 0, []⟩ 2 7 "").2.1 = 2) ∧
    ((withdraw ⟨"food", 5, 0, []⟩ 2 5 "").2.2 = true ∧
      (withdraw ⟨"food", 5, 0, []⟩ 2 5 "").1.balance = 0) := by
  have h1 := C1_withdraw ⟨"food", 5, 0, []⟩ 2 7 ""
  have h2 := C1_withdraw ⟨"food", 5, 0, []⟩ 2 5 ""
  have hf : (withdraw (⟨"food", 5, 0, []⟩ : Cat) 2 7 "").2.2 = false :=
    h1.1.mpr (by show (7 : ℚ) > 5; norm_num)
  exact ⟨⟨hf, (h1.2.1 hf).1, (h1.2.1 hf).2⟩, h2.2.2 rfl⟩

/-! ### C2: balance equals the ledger sum -/

theorem balanced_deposit (c : Cat) (a : ℚ) (d : String) (h : balancedCat c) :
    balancedCat (deposit c a d) := by
  simp only [balancedCat, deposit, ledgerSum, List.map_append, List.sum_append,
    List.map_cons, List.map_nil, List.sum_cons, List.sum_nil] at h ⊢
  rw [h]
  ring

theorem balanced_withdraw (c : Cat) (t a : ℚ) (d : String) (h : balancedCat c) :
    balancedCat (withdraw c t a d).1 := by
  unfold withdraw
  split
  · simp only [balancedCat, ledgerSum, List.map_append, List.map_cons, List.map_nil,
      List.sum_append, List.sum_cons, List.sum_nil] at h ⊢
    rw [h]
    ring
  · exact h

theorem balanced_doDeposit (s : BankState) (i : Nat) (a : ℚ) (d : String)
    (hs : ∀ c ∈ s.cats, balancedCat c) :
    ∀ c ∈ (doDeposit s i a d).cats, balancedCat c := by
  intro c hc
  unfold doDeposit at hc
  split at hc
  · rcases List.mem_or_eq_of_mem_set hc with h | h
    · exact hs c h
    · subst h
      exact balanced_deposit _ _ _ (hs _ (getD_mem _ _ _ (by assumption)))
  · exact hs c hc

theorem balanced_doWithdraw (s : BankState) (i : Nat) (a : ℚ) (d : String)
    (hs : ∀ c ∈ s.cats, balancedCat c) :
    ∀ c ∈ (doWithdraw s i a d).1.cats, balancedCat c := by
  intro c hc
  unfold doWithdraw at hc
  split at hc
  · rcases List.mem_or_eq_of_mem_set hc with h | h
    · exact hs c h
    · subst h
      exact balanced_withdraw _ _ _ _ (hs _ (getD_mem _ _ _ (by assumption)))
  · exact hs c hc

theorem balanced_step (s : BankState) (op : Op)
    (hs : ∀ c ∈ s.cats, balancedCat c) :
    ∀ c ∈ (step s op).cats, balancedCat c := by
  cases op with
  | deposit i a d => exact balanced_doDeposit s i a d hs
  | withdraw i a d => exact balanced_doWithdraw s i a d hs
  | transfer i j a =>
    show ∀ c ∈ (doTransfer s i j a).1.cats, balancedCat c
    unfold doTransfer
    split
    · split
      · exact balanced_doDeposit _ _ _ _ (balanced_doWithdraw _ _ _ _ hs)
      · exact hs
    · exact hs

/-- C2: from any state whose categories all satisfy balance = ledger sum (in
particular freshly constructed ones), every finite sequence of deposit,
withdraw and transfer operations preserves that equality for every
category. -/
theorem C2_balance (s : BankState) (ops : List Op)
    (hs : ∀ c ∈ s.cats, balancedCat c) :
    ∀ c ∈ (run s ops).cats, balancedCat c := by
  induction ops generalizing s with
  | nil => simpa [run] using hs
  | cons op rest ih =>
    have h : run s (op :: rest) = run (step s op) rest := rfl
    rw [h]
    exact ih _ (balanced_step s op hs)

/-- Witness for C2: a fresh category after a deposit of 3 and a withdrawal
of 1 still has its balance equal to its ledger sum. -/
theorem C2_balance_w :
    balancedCat
      ((run (initState ["food"]) [Op.deposit 0 3 "d", Op.withdraw 0 1 "w"]).cats.getD 0 noCat) := by
  have hs : ∀ c ∈ (initState ["food"]).cats, balancedCat c := by
    intro c hc
    simp only [initState, List.map_cons, List.map_nil, List.mem_cons,
      List.not_mem_nil, or_false] at hc
    subst hc
    simp [balancedCat, mkCategory, ledgerSum]
  have hlen : 0 < (run (initState ["food"]) [Op.deposit 0 3 "d", Op.withdraw 0 1 "w"]).cats.length := by
    rw [length_run]
    simp [initState]
  exact C2_balance (initState ["food"]) [Op.deposit 0 3 "d", Op.withdraw 0 1 "w"] hs _
    (getD_mem _ _ _ hlen)

/-! ### C3: the transfer contract -/

theorem withdraw_of_check (c : Cat) (t a : ℚ) (d : String)
    (hcf : check_funds c a = true) :
    withdraw c t a d = (catAfterWithdraw c a d, t + a, true) := by
  unfold withdraw catAfterWithdraw
  rw [if_pos hcf]

/-- C3: a successful transfer between two distinct categories moves the
balance, adds the amount once to the source withdrawn total and once to the
class total, and appends the two transfer records with their rendered
descriptions. -/
theorem C3_transfer (s : BankState) (i j : Nat) (a : ℚ)
    (hij : i ≠ j) (hi : i < s.cats.length) (hj : j < s.cats.length)
    (hok : (doTransfer s i j a).2 = true) :
    (catAt (doTransfer s i j a).1 i).balance = (catAt s i).balance - a
    ∧ (catAt (doTransfer s i j a).1 j).balance = (catAt s j).balance + a
    ∧ (catAt (doTransfer s i j a).1 i).amount_withdrawn
        = (catAt s i).amount_withdrawn + a
    ∧ (doTransfer s i j a).1.total_withdrawn = s.total_withdrawn + a
    ∧ (catAt (doTransfer s i j a).1 i).ledger
        = (catAt s i).ledger ++
            [{ amount := -a, description := "Transfer to " ++ (catAt s j).name }]
    ∧ (catAt (doTransfer s i j a).1 j).ledger
        = (catAt s j).ledger ++
            [{ amount := a, description := "Transfer from " ++ (catAt s i).name }] := by
  have hcf : check_funds (catAt s i) a = true := by
    unfold doTransfer at hok
    rw [if_pos ⟨hi, hj⟩] at hok
    by_cases h : check_funds (catAt s i) a
    · exact h
    · rw [if_neg h] at hok
      simp at hok
  have hstate : (doTransfer s i j a).1 =
      { cats := (s.cats.set i
            (catAfterWithdraw (catAt s i) a ("Transfer to " ++ (catAt s j).name))).set j
            (deposit (catAt s j) a ("Transfer from " ++ (catAt s i).name)),
        total_withdrawn := s.total_withdrawn + a } := by
    unfold doTransfer
    rw [if_pos ⟨hi, hj⟩, if_pos hcf]
    unfold doWithdraw
    rw [if_pos hi, withdraw_of_check _ _ _ _ hcf]
    unfold doDeposit
    dsimp only
    rw [if_pos (by rw [List.length_set]; exact hj)]
    have hmid : (s.cats.set i
          (catAfterWithdraw (catAt s i) a ("Transfer to " ++ (catAt s j).name))).getD j noCat
        = catAt s j := getD_set_ne _ _ _ _ _ hij
    dsimp only [catAt] at hmid ⊢
    rw [hmid]
  rw [hstate]
  have hgj : ((s.cats.set i
        (catAfterWithdraw (catAt s i) a ("Transfer to " ++ (catAt s j).name))).set j
        (deposit (catAt s j) a ("Transfer from " ++ (catAt s i).name))).getD j noCat
      = deposit (catAt s j) a ("Transfer from " ++ (catAt s i).name) :=
    getD_set_self _ _ _ _ (by rw [List.length_set]; exact hj)
  have hgi : ((s.cats.set i
        (catAfterWithdraw (catAt s i) a ("Transfer to " ++ (catAt s j).name))).set j
        (deposit (catAt s j) a ("Transfer from " ++ (catAt s i).name))).getD i noCat
      = catAfterWithdraw (catAt s i) a ("Transfer to " ++ (catAt s j).name) := by
    rw [getD_set_ne _ _ _ _ _ (Ne.symm hij), getD_set_self _ _ _ _ hi]
  dsimp only [catAt] at hgi hgj ⊢
  rw [hgi, hgj]
  exact ⟨rfl, by simp [deposit], rfl, rfl, rfl, by simp [deposit]⟩

/-- Witness for C3: transferring 4 from a category with balance 10 to a
fresh one succeeds and has all six effects. -/
theorem C3_transfer_w :
    (catAt (doTransfer ⟨[⟨"a", 10, 0, []⟩, ⟨"b", 0, 0, []⟩], 0⟩ 0 1 4).1 0).balance
        = (catAt ⟨[⟨"a", 10, 0, []⟩, ⟨"b", 0, 0, []⟩], 0⟩ 0).balance - 4
    ∧ (catAt (doTransfer ⟨[⟨"a", 10, 0, []⟩, ⟨"b", 0, 0, []⟩], 0⟩ 0 1 4).1 1).balance
        = (catAt ⟨[⟨"a", 10, 0, []⟩, ⟨"b", 0, 0, []⟩], 0⟩ 1).balance + 4
    ∧ (catAt (doTransfer ⟨[⟨"a", 10, 0, []⟩, ⟨"b", 0, 0, []⟩], 0⟩ 0 1 4).1 0).amount_withdrawn
        = (catAt ⟨[⟨"a", 10, 0, []⟩, ⟨"b", 0, 0, []⟩], 0⟩ 0).amount_withdrawn + 4
    ∧ (doTransfer ⟨[⟨"a", 10, 0, []⟩, ⟨"b", 0, 0, []⟩], 0⟩ 0 1 4).1.total_withdrawn
        = (⟨[⟨"a", 10, 0, []⟩, ⟨"b", 0, 0, []⟩], 0⟩ : BankState).total_withdrawn + 4
    ∧ (catAt (doTransfer ⟨[⟨"a", 10, 0, []⟩, ⟨"b", 0, 0, []⟩], 0⟩ 0 1 4).1 0).ledger
        = (catAt ⟨[⟨"a", 10, 0, []⟩, ⟨"b", 0, 0, []⟩], 0⟩ 0).ledger ++
            [{ amount := -4,
               description := "Transfer to " ++ (catAt ⟨[⟨"a", 10, 0, []⟩, ⟨"b", 0, 0, []⟩], 0⟩ 1).name }]
    ∧ (catAt (doTransfer ⟨[⟨"a", 10, 0, []⟩, ⟨"b", 0, 0, []⟩], 0⟩ 0 1 4).1 1).ledger
        = (catAt ⟨[⟨"a", 10, 0, []⟩, ⟨"b", 0, 0, []⟩], 0⟩ 1).ledger ++
            [{ amount := 4,
               description := "Transfer from " ++ (catAt ⟨[⟨"a", 10, 0, []⟩, ⟨"b", 0, 0, []⟩], 0⟩ 0).name }] := by
  refine C3_transfer ⟨[⟨"a", 10, 0, []⟩, ⟨"b", 0, 0, []⟩], 0⟩ 0 1 4
    (by decide) (by decide) (by decide) ?_
  rfl

/-! ### C5: monotonicity and lockstep of the withdrawn totals -/

theorem withdraw_of_not_check (c : Cat) (t a : ℚ) (d : String)
    (hcf : ¬ check_funds c a = true) :
    withdraw c t a d = (c, t, false) := by
  unfold withdraw
  rw [if_neg hcf]

theorem aw_doDeposit (s : BankState) (j : Nat) (a : ℚ) (d : String) (i : Nat) :
    (catAt (doDeposit s j a d) i).amount_withdrawn
      = (catAt s i).amount_withdrawn := by
  by_cases hlen : j < s.cats.length
  · unfold doDeposit
    rw [if_pos hlen]
    dsimp only [catAt]
    by_cases h : j = i
    · subst h
      rw [getD_set_self _ _ _ _ hlen]
      simp [deposit]
    · rw [getD_set_ne _ _ _ _ _ h]
  · unfold doDeposit
    rw [if_neg hlen]

theorem tw_doDeposit (s : BankState) (j : Nat) (a : ℚ) (d : String) :
    (doDeposit s j a d).total_withdrawn = s.total_withdrawn := by
  unfold doDeposit
  split <;> rfl

theorem aw_doWithdraw (s : BankState) (j : Nat) (a : ℚ) (d : String) (i : Nat) :
    (catAt (doWithdraw s j a d).1 i).amount_withdrawn
      = (catAt s i).amount_withdrawn
          + (if i = j ∧ (doWithdraw s j a d).2 = true then a else 0) := by
  by_cases hlen : j < s.cats.length
  · by_cases hcf : check_funds (catAt s j) a = true
    · unfold doWithdraw
      rw [if_pos hlen, withdraw_of_check _ _ _ _ hcf]
      dsimp only [catAt]
      by_cases h : i = j
      · subst h
        rw [getD_set_self _ _ _ _ hlen]
        simp [catAfterWithdraw]
      · rw [getD_set_ne _ _ _ _ _ (fun he => h he.symm)]
        simp [h]
    · unfold doWithdraw
      rw [if_pos hlen, withdraw_of_not_check _ _ _ _ hcf]
      dsimp only [catAt]
      by_cases h : i = j
      · subst h
        rw [getD_set_self _ _ _ _ hlen]
        simp [catAt]
      · rw [getD_set_ne _ _ _ _ _ (fun he => h he.symm)]
        simp
  · unfold doWithdraw
    rw [if_neg hlen]
    simp

theorem tw_doWithdraw (s : BankState) (j : Nat) (a : ℚ) (d : String) :
    (doWithdraw s j a d).1.total_withdrawn
      = s.total_withdrawn + (if (doWithdraw s j a d).2 = true then a else 0) := by
  by_cases hlen : j < s.cats.length
  · by_cases hcf : check_funds (catAt s j) a = true
    · unfold doWithdraw
      rw [if_pos hlen, withdraw_of_check _ _ _ _ hcf]
      simp
    · unfold doWithdraw
      rw [if_pos hlen, withdraw_of_not_check _ _ _ _ hcf]
      simp
  · unfold doWithdraw
    rw [if_neg hlen]
    simp

theorem withdraw_leg_ok (s : BankState) (i : Nat) (a : ℚ) (d : String)
    (hlen : i < s.cats.length) (hcf : check_funds (catAt s i) a = true) :
    (doWithdraw s i a d).2 = true := by
  unfold doWithdraw
  rw [if_pos hlen, withdraw_of_check _ _ _ _ hcf]

theorem aw_doTransfer (s : BankState) (i j : Nat) (a : ℚ) (m : Nat) :
    (catAt (doTransfer s i j a).1 m).amount_withdrawn
      = (catAt s m).amount_withdrawn
          + (if m = i ∧ (doTransfer s i j a).2 = true then a else 0) := by
  by_cases hlen : i < s.cats.length ∧ j < s.cats.length
  · by_cases hcf : check_funds (catAt s i) a = true
    · unfold doTransfer
      rw [if_pos hlen, if_pos hcf]
      dsimp only
      rw [aw_doDeposit, aw_doWithdraw,
        withdraw_leg_ok s i a ("Transfer to " ++ (catAt s j).name) hlen.1 hcf]
    · unfold doTransfer
      rw [if_pos hlen, if_neg hcf]
      simp
  · unfold doTransfer
    rw [if_neg hlen]
    simp

theorem tw_doTransfer (s : BankState) (i j : Nat) (a : ℚ) :
    (doTransfer s i j a).1.total_withdrawn
      = s.total_withdrawn + (if (doTransfer s i j a).2 = true then a else 0) := by
  by_cases hlen : i < s.cats.length ∧ j < s.cats.length
  · by_cases hcf : check_funds (catAt s i) a = true
    · unfold doTransfer
      rw [if_pos hlen, if_pos hcf]
      dsimp only
      rw [tw_doDeposit, tw_doWithdraw,
        withdraw_leg_ok s i a ("Transfer to " ++ (catAt s j).name) hlen.1 hcf]
    · unfold doTransfer
      rw [if_pos hlen, if_neg hcf]
      simp
  · unfold doTransfer
    rw [if_neg hlen]
    simp

theorem aw_step_mono (t : BankState) (op : Op) (m : Nat) (h : 0 ≤ opAmount op) :
    (catAt t m).amount_withdrawn ≤ (catAt (step t op) m).amount_withdrawn := by
  cases op with
  | deposit i a d =>
    rw [show (catAt (step t (Op.deposit i a d)) m) = catAt (doDeposit t i a d) m from rfl,
      aw_doDeposit]
  | withdraw i a d =>
    rw [show (catAt (step t (Op.withdraw i a d)) m)
        = catAt (doWithdraw t i a d).1 m from rfl, aw_doWithdraw]
    have ha : (0 : ℚ) ≤ a := h
    have : (0 : ℚ) ≤ (if m = i ∧ (doWithdraw t i a d).2 = true then a else 0) := by
      split
      · exact ha
      · exact le_refl 0
    linarith
  | transfer i j a =>
    rw [show (catAt (step t (Op.transfer i j a)) m)
        = catAt (doTransfer t i j a).1 m from rfl, aw_doTransfer]
    have ha : (0 : ℚ) ≤ a := h
    have : (0 : ℚ) ≤ (if m = i ∧ (doTransfer t i j a).2 = true then a else 0) := by
      split
      · exact ha
      · exact le_refl 0
    linarith

theorem tw_step_mono (t : BankState) (op : Op) (h : 0 ≤ opAmount op) :
    t.total_withdrawn ≤ (step t op).total_withdrawn := by
  cases op with
  | deposit i a d =>
    rw [show (step t (Op.deposit i a d)).total_withdrawn
        = (doDeposit t i a d).total_withdrawn from rfl, tw_doDeposit]
  | withdraw i a d =>
    rw [show (step t (Op.withdraw i a d)).total_withdrawn
        = (doWithdraw t i a d).1.total_withdrawn from rfl, tw_doWithdraw]
    have ha : (0 : ℚ) ≤ a := h
    have : (0 : ℚ) ≤ (if (doWithdraw t i a d).2 = true then a else 0) := by
      split
      · exact ha
      · exact le_refl 0
    linarith
  | transfer i j a =>
    rw [show (step t (Op.transfer i j a)).total_withdrawn
        = (doTransfer t i j a).1.total_withdrawn from rfl, tw_doTransfer]
    have ha : (0 : ℚ) ≤ a := h
    have : (0 : ℚ) ≤ (if (doTransfer t i j a).2 = true then a else 0) := by
      split
      · exact ha
      · exact le_refl 0
    linarith

theorem aw_run_mono (s : BankState) (ops : List Op)
    (hops : ∀ op ∈ ops, 0 ≤ opAmount op) (m : Nat) :
    (catAt s m).amount_withdrawn ≤ (catAt (run s ops) m).amount_withdrawn := by
  induction ops generalizing s with
  | nil => exact le_refl _
  | cons op rest ih =>
    have h : run s (op :: rest) = run (step s op) rest := rfl
    rw [h]
    exact le_trans (aw_step_mono s op m (hops op (List.mem_cons_self _ _)))
      (ih (step s op) (fun o ho => hops o (List.mem_cons_of_mem _ ho)))

theorem tw_run_mono (s : BankState) (ops : List Op)
    (hops : ∀ op ∈ ops, 0 ≤ opAmount op) :
    s.total_withdrawn ≤ (run s ops).total_withdrawn := by
  induction ops generalizing s with
  | nil => exact le_refl _
  | cons op rest ih =>
    have h : run s (op :: rest) = run (step s op) rest := rfl
    rw [h]
    exact le_trans (tw_step_mono s op (hops op (List.mem_cons_self _ _)))
      (ih (step s op) (fun o ho => hops o (List.mem_cons_of_mem _ ho)))

/-- C5 (amended): with non-negative operation amounts, every per-category
withdrawn total stays non-negative and never decreases, and the class total
never decreases; for arbitrary amounts, a per-category withdrawn total
changes only when a withdrawal (plain or transfer leg) from that category
succeeds, and then by exactly the operation amount, and the class total
changes only in lockstep with some category changing by the same amount. -/
theorem C5_amended (s : BankState) (ops : List Op)
    (hops : ∀ op ∈ ops, 0 ≤ opAmount op)
    (hs : ∀ i, 0 ≤ (catAt s i).amount_withdrawn) :
    (∀ i, 0 ≤ (catAt (run s ops) i).amount_withdrawn)
    ∧ (∀ i, (catAt s i).amount_withdrawn ≤ (catAt (run s ops) i).amount_withdrawn)
    ∧ s.total_withdrawn ≤ (run s ops).total_withdrawn
    ∧ (∀ t op m, (catAt (step t op) m).amount_withdrawn ≠ (catAt t m).amount_withdrawn →
        ((∃ x d, op = Op.withdraw m x d ∧ (doWithdraw t m x d).2 = true)
          ∨ (∃ j x, op = Op.transfer m j x ∧ (doTransfer t m j x).2 = true))
        ∧ (catAt (step t op) m).amount_withdrawn
            = (catAt t m).amount_withdrawn + opAmount op)
    ∧ (∀ t op, (step t op).total_withdrawn ≠ t.total_withdrawn →
        ∃ m, (catAt (step t op) m).amount_withdrawn
            = (catAt t m).amount_withdrawn
              + ((step t op).total_withdrawn - t.total_withdrawn)) := by
  refine ⟨fun i => le_trans (hs i) (aw_run_mono s ops hops i),
    fun i => aw_run_mono s ops hops i, tw_run_mono s ops hops, ?_, ?_⟩
  · intro t op m hne
    cases op with
    | deposit i a d => exact absurd (aw_doDeposit t i a d m) hne
    | withdraw i a d =>
      have he := aw_doWithdraw t i a d m
      by_cases hc : m = i ∧ (doWithdraw t i a d).2 = true
      · rw [if_pos hc] at he
        refine ⟨Or.inl ⟨a, d, by rw [hc.1], hc.1 ▸ hc.2⟩, ?_⟩
        show (catAt (doWithdraw t i a d).1 m).amount_withdrawn
            = (catAt t m).amount_withdrawn + opAmount (Op.withdraw i a d)
        rw [he]
        rfl
      · rw [if_neg hc, add_zero] at he
        exact absurd he hne
    | transfer i j a =>
      have he := aw_doTransfer t i j a m
      by_cases hc : m = i ∧ (doTransfer t i j a).2 = true
      · rw [if_pos hc] at he
        refine ⟨Or.inr ⟨j, a, by rw [hc.1], hc.1 ▸ hc.2⟩, ?_⟩
        show (catAt (doTransfer t i j a).1 m).amount_withdrawn
            = (catAt t m).amount_withdrawn + opAmount (Op.transfer i j a)
        rw [he]
        rfl
      · rw [if_neg hc, add_zero] at he
        exact absurd he hne
  · intro t op hne
    cases op with
    | deposit i a d => exact absurd (tw_doDeposit t i a d) hne
    | withdraw i a d =>
      refine ⟨i, ?_⟩
      have ht := tw_doWithdraw t i a d
      have ha := aw_doWithdraw t i a d i
      by_cases hb : (doWithdraw t i a d).2 = true
      · rw [if_pos hb] at ht
        rw [if_pos ⟨rfl, hb⟩] at ha
        have hd : (step t (Op.withdraw i a d)).total_withdrawn
            - t.total_withdrawn = a := by
          rw [show (step t (Op.withdraw i a d)).total_withdrawn
              = (doWithdraw t i a d).1.total_withdrawn from rfl, ht]
          ring
        rw [hd]
        exact ha
      · rw [if_neg hb, add_zero] at ht
        exact absurd ht hne
    | transfer i j a =>
      refine ⟨i, ?_⟩
      have ht := tw_doTransfer t i j a
      have ha := aw_doTransfer t i j a i
      by_cases hb : (doTransfer t i j a).2 = true
      · rw [if_pos hb] at ht
        rw [if_pos ⟨rfl, hb⟩] at ha
        have hd : (step t (Op.transfer i j a)).total_withdrawn
            - t.total_withdrawn = a := by
          rw [show (step t (Op.transfer i j a)).total_withdrawn
              = (doTransfer t i j a).1.total_withdrawn from rfl, ht]
          ring
        rw [hd]
        exact ha
      · rw [if_neg hb, add_zero] at ht
        exact absurd ht hne

/-- Witness for the amended C5 at a concrete run: a deposit of 2 followed by
a withdrawal of 1 on a fresh category. -/
theorem C5_amended_w :
    0 ≤ (catAt (run (initState ["a"]) [Op.deposit 0 2 "d", Op.withdraw 0 1 "w"]) 0).amount_withdrawn
    ∧ (catAt (initState ["a"]) 0).amount_withdrawn
        ≤ (catAt (run (initState ["a"]) [Op.deposit 0 2 "d", Op.withdraw 0 1 "w"]) 0).amount_withdrawn
    ∧ (initState ["a"]).total_withdrawn
        ≤ (run (initState ["a"]) [Op.deposit 0 2 "d", Op.withdraw 0 1 "w"]).total_withdrawn := by
  have h := C5_amended (initState ["a"]) [Op.deposit 0 2 "d", Op.withdraw 0 1 "w"]
    (by
      intro op hop
      simp only [List.mem_cons, List.not_mem_nil, or_false] at hop
      rcases hop with h1 | h1 <;> rw [h1] <;> norm_num [opAmount])
    (by
      intro i
      cases i with
      | zero => norm_num [catAt, initState, mkCategory]
      | succ n =>
        show (0 : ℚ) ≤ (([mkCategory "a"].getD (n + 1) noCat)).amount_withdrawn
        norm_num [noCat])
  exact ⟨h.1 0, h.2.1 0, h.2.2.1⟩

/-- Counterexample to C5 as stated: with a negative amount, `withdraw (-1)`
on a fresh category succeeds (the funds check passes), driving the
per-category withdrawn total and the class total below zero, so neither is
non-negative nor non-decreasing under arbitrary amounts. -/
theorem C5_cex :
    (catAt (run (initState ["a"]) [Op.withdraw 0 (-1) ""]) 0).amount_withdrawn < 0
    ∧ (run (initState ["a"]) [Op.withdraw 0 (-1) ""]).total_withdrawn
        < (initState ["a"]).total_withdrawn := by
  have hrun : run (initState ["a"]) [Op.withdraw 0 (-1) ""]
      = (doWithdraw (initState ["a"]) 0 (-1) "").1 := rfl
  have hcf : check_funds (catAt (initState ["a"]) 0) (-1) = true := by
    show check_funds (mkCategory "a") (-1) = true
    unfold check_funds mkCategory
    rw [if_neg (by norm_num)]
  have hsucc : (doWithdraw (initState ["a"]) 0 (-1) "").2 = true :=
    withdraw_leg_ok (initState ["a"]) 0 (-1) "" (by decide) hcf
  have haw := aw_doWithdraw (initState ["a"]) 0 (-1) "" 0
  rw [if_pos ⟨rfl, hsucc⟩] at haw
  have htw := tw_doWithdraw (initState ["a"]) 0 (-1) ""
  rw [if_pos hsucc] at htw
  constructor
  · rw [hrun, haw]
    show (0 : ℚ) + (-1) < 0
    norm_num
  · rw [hrun, htw]
    show (0 : ℚ) + (-1) < 0
    norm_num

/-! ### C6: ledger growth -/

theorem ledger_doDeposit (s : BankState) (j : Nat) (a : ℚ) (d : String) (i : Nat) :
    (catAt (doDeposit s j a d) i).ledger
      = (catAt s i).ledger ++
          (if i = j ∧ j < s.cats.length then [{ amount := a, description := d }] else []) := by
  by_cases hlen : j < s.cats.length
  · unfold doDeposit
    rw [if_pos hlen]
    dsimp only [catAt]
    by_cases h : i = j
    · subst h
      rw [getD_set_self _ _ _ _ hlen]
      simp [deposit, hlen]
    · rw [getD_set_ne _ _ _ _ _ (fun he => h he.symm)]
      simp [h]
  · unfold doDeposit
    rw [if_neg hlen]
    simp [hlen]

theorem ledger_doWithdraw (s : BankState) (j : Nat) (a : ℚ) (d : String) (i : Nat) :
    (catAt (doWithdraw s j a d).1 i).ledger
      = (catAt s i).ledger ++
          (if i = j ∧ (doWithdraw s j a d).2 = true then
            [{ amount := -a, description := d }]
          else []) := by
  by_cases hlen : j < s.cats.length
  · by_cases hcf : check_funds (catAt s j) a = true
    · unfold doWithdraw
      rw [if_pos hlen, withdraw_of_check _ _ _ _ hcf]
      dsimp only [catAt]
      by_cases h : i = j
      · subst h
        rw [getD_set_self _ _ _ _ hlen]
        simp [catAfterWithdraw]
      · rw [getD_set_ne _ _ _ _ _ (fun he => h he.symm)]
        simp [h]
    · unfold doWithdraw
      rw [if_pos hlen, withdraw_of_not_check _ _ _ _ hcf]
      dsimp only [catAt]
      by_cases h : i = j
      · subst h
        rw [getD_set_self _ _ _ _ hlen]
        simp
      · rw [getD_set_ne _ _ _ _ _ (fun he => h he.symm)]
        simp
  · unfold doWithdraw
    rw [if_neg hlen]
    simp

theorem ledger_doTransfer (s : BankState) (i j : Nat) (a : ℚ) (m : Nat) :
    (catAt (doTransfer s i j a).1 m).ledger
      = (catAt s m).ledger ++
          (if (doTransfer s i j a).2 = true then
            (if m = i then
              [{ amount := -a, description := "Transfer to " ++ (catAt s j).name }]
            else []) ++
            (if m = j then
              [{ amount := a, description := "Transfer from " ++ (catAt s i).name }]
            else [])
          else []) := by
  by_cases hlen : i < s.cats.length ∧ j < s.cats.length
  · by_cases hcf : check_funds (catAt s i) a = true
    · unfold doTransfer
      rw [if_pos hlen, if_pos hcf]
      dsimp only
      rw [ledger_doDeposit, ledger_doWithdraw,
        withdraw_leg_ok s i a ("Transfer to " ++ (catAt s j).name) hlen.1 hcf,
        length_doWithdraw]
      simp [hlen.2, List.append_assoc]
    · unfold doTransfer
      rw [if_pos hlen, if_neg hcf]
      dsimp only
      simp
  · unfold doTransfer
    rw [if_neg hlen]
    dsimp only
    simp

theorem opValid_step (s : BankState) (op o : Op) (h : opValid s o) :
    opValid (step s op) o := by
  cases o with
  | deposit i a d =>
    show i < (step s op).cats.length
    rw [length_step]
    exact h
  | withdraw i a d =>
    show i < (step s op).cats.length
    rw [length_step]
    exact h
  | transfer i j a =>
    refine ⟨?_, ?_⟩ <;> rw [length_step]
    · exact h.1
    · exact h.2

theorem run_ledger_len (s : BankState) (ops : List Op) (i : Nat)
    (hv : ∀ op ∈ ops, opValid s op) :
    (catAt (run s ops) i).ledger.length
      = (catAt s i).ledger.length + (countsFor i s ops).1 + (countsFor i s ops).2 := by
  induction ops generalizing s with
  | nil => simp [run, countsFor]
  | cons op rest ih =>
    have hrun : run s (op :: rest) = run (step s op) rest := rfl
    have hv' : ∀ o ∈ rest, opValid (step s op) o :=
      fun o ho => opValid_step s op o (hv o (List.mem_cons_of_mem _ ho))
    rw [hrun, ih (step s op) hv']
    cases op with
    | deposit j a d =>
      have hval : j < s.cats.length := hv _ (List.mem_cons_self _ _)
      simp only [countsFor, step]
      rw [ledger_doDeposit]
      by_cases h : i = j
      · subst h
        simp [hval]
        omega
      · simp [h, Ne.symm h]
    | withdraw j a d =>
      simp only [countsFor, step]
      rw [ledger_doWithdraw]
      by_cases hs2 : (doWithdraw s j a d).2 = true
      · by_cases h : i = j
        · subst h
          simp [hs2]
          omega
        · simp [h, Ne.symm h, hs2]
      · simp [hs2]
    | transfer j k a =>
      simp only [countsFor, step]
      rw [ledger_doTransfer]
      by_cases hs2 : (doTransfer s j k a).2 = true
      · by_cases h1 : i = j <;> by_cases h2 : i = k
        · subst h1
          subst h2
          simp [hs2]
          omega
        · subst h1
          simp [hs2, h2, Ne.symm h2]
          omega
        · subst h2
          simp [hs2, h1, Ne.symm h1]
          omega
        · simp [hs2, h1, h2, Ne.symm h1, Ne.symm h2]
      · simp [hs2]

theorem step_ledger_nonzero (t : BankState) (op : Op) (i : Nat)
    (ha : opAmount op ≠ 0)
    (h : ∀ e ∈ (catAt t i).ledger, e.amount ≠ 0) :
    ∀ e ∈ (catAt (step t op) i).ledger, e.amount ≠ 0 := by
  intro e he
  cases op with
  | deposit j a d =>
    simp only [step] at he
    rw [ledger_doDeposit] at he
    rcases List.mem_append.mp he with h1 | h1
    · exact h e h1
    · have ha' : a ≠ 0 := ha
      split at h1
      · simp only [List.mem_singleton] at h1
        rw [h1]
        exact ha'
      · simp at h1
  | withdraw j a d =>
    simp only [step] at he
    rw [ledger_doWithdraw] at he
    rcases List.mem_append.mp he with h1 | h1
    · exact h e h1
    · have ha' : a ≠ 0 := ha
      split at h1
      · simp only [List.mem_singleton] at h1
        rw [h1]
        simpa using ha'
      · simp at h1
  | transfer j k a =>
    simp only [step] at he
    rw [ledger_doTransfer] at he
    rcases List.mem_append.mp he with h1 | h1
    · exact h e h1
    · have ha' : a ≠ 0 := ha
      split at h1
      · rcases List.mem_append.mp h1 with h2 | h2
        · split at h2
          · simp only [List.mem_singleton] at h2
            rw [h2]
            simpa using ha'
          · simp at h2
        · split at h2
          · simp only [List.mem_singleton] at h2
            rw [h2]
            exact ha'
          · simp at h2
      · simp at h1

theorem run_ledger_nonzero (s : BankState) (ops : List Op) (i : Nat)
    (hops : ∀ op ∈ ops, opAmount op ≠ 0)
    (hinit : ∀ e ∈ (catAt s i).ledger, e.amount ≠ 0) :
    ∀ e ∈ (catAt (run s ops) i).ledger, e.amount ≠ 0 := by
  induction ops generalizing s with
  | nil => exact hinit
  | cons op rest ih =>
    have hrun : run s (op :: rest) = run (step s op) rest := rfl
    rw [hrun]
    exact ih (step s op)
      (fun o ho => hops o (List.mem_cons_of_mem _ ho))
      (step_ledger_nonzero s op i (hops op (List.mem_cons_self _ _)) hinit)

/-- C6 (amended): after any sequence of valid operations, the ledger length
of a category equals its initial length plus the number of deposits
performed on it plus the number of successful withdrawals from it (failed
withdrawals append nothing); and when every operation amount is non-zero,
every ledger record carries a non-zero amount (a zero-amount deposit or
withdrawal is accepted by the code and records a zero amount). -/
theorem C6_amended (s : BankState) (ops : List Op) (i : Nat)
    (hv : ∀ op ∈ ops, opValid s op) :
    ((catAt (run s ops) i).ledger.length
      = (catAt s i).ledger.length + (countsFor i s ops).1 + (countsFor i s ops).2)
    ∧ ((∀ op ∈ ops, opAmount op ≠ 0) →
        (∀ e ∈ (catAt s i).ledger, e.amount ≠ 0) →
        ∀ e ∈ (catAt (run s ops) i).ledger, e.amount ≠ 0) :=
  ⟨run_ledger_len s ops i hv,
    fun h1 h2 => run_ledger_nonzero s ops i h1 h2⟩

/-- Witness for the amended C6: a deposit of 2 followed by a failed
withdrawal of 5 on a fresh category. -/
theorem C6_amended_w :
    ((catAt (run (initState ["a"]) [Op.deposit 0 2 "d", Op.withdraw 0 5 "w"]) 0).ledger.length
      = (catAt (initState ["a"]) 0).ledger.length
        + (countsFor 0 (initState ["a"]) [Op.deposit 0 2 "d", Op.withdraw 0 5 "w"]).1
        + (countsFor 0 (initState ["a"]) [Op.deposit 0 2 "d", Op.withdraw 0 5 "w"]).2)
    ∧ ((∀ op ∈ [Op.deposit 0 2 "d", Op.withdraw 0 5 "w"], opAmount op ≠ 0) →
        (∀ e ∈ (catAt (initState ["a"]) 0).ledger, e.amount ≠ 0) →
        ∀ e ∈ (catAt (run (initState ["a"]) [Op.deposit 0 2 "d", Op.withdraw 0 5 "w"]) 0).ledger,
          e.amount ≠ 0) :=
  C6_amended (initState ["a"]) [Op.deposit 0 2 "d", Op.withdraw 0 5 "w"] 0
    (by
      intro op hop
      simp only [List.mem_cons, List.not_mem_nil, or_false] at hop
      rcases hop with h1 | h1 <;> rw [h1] <;> exact Nat.zero_lt_one)

/-- Counterexample to C6 as stated: a deposit of amount 0 is accepted and
appends a record with amount 0, so not every ledger record has a non-zero
amount. -/
theorem C6_cex :
    ((catAt (run (initState ["a"]) [Op.deposit 0 0 ""]) 0).ledger.map Entry.amount)
      = [0] := by
  have hl := ledger_doDeposit (initState ["a"]) 0 0 "" 0
  rw [if_pos ⟨rfl, by decide⟩] at hl
  show ((catAt (doDeposit (initState ["a"]) 0 0 "") 0).ledger.map Entry.amount) = [0]
  rw [hl]
  simp [catAt, initState, mkCategory]

/-! ### C10, C8, C9: failure modes and title line of the chart -/

/-- C10: on an empty category list `create_spend_chart` always fails with
the ValueError raised by taking the longest name of an empty sequence,
whatever the class withdrawn total is. -/
theorem C10_empty (tw : ℚ) :
    create_spend_chart [] tw
      = Except.error "ValueError: max() arg is an empty sequence" := rfl

/-- C8: on a non-empty category list with a zero class withdrawn total,
`create_spend_chart` fails with the division-by-zero error instead of
returning a chart string. -/
theorem C8_div_zero (cats : List Cat) (tw : ℚ) (hne : cats ≠ []) (h0 : tw = 0) :
    create_spend_chart cats tw
      = Except.error "ZeroDivisionError: float division by zero" := by
  subst h0
  unfold create_spend_chart build_array
  rw [if_neg (fun hemp => hne (List.isEmpty_iff.mp hemp)), if_pos rfl]
  rfl

/-- Witness for C8: a single fresh category and a zero class total. -/
theorem C8_div_zero_w :
    create_spend_chart [noCat] 0
      = Except.error "ZeroDivisionError: float division by zero" :=
  C8_div_zero [noCat] 0 (by simp) rfl

/-- C9: whenever `create_spend_chart` returns a string, that string starts
with the title line `Percentage spent by category` followed by a newline,
and the title itself contains no newline, so it is exactly the first
line. -/
theorem C9_title (cats : List Cat) (tw : ℚ) (s : String)
    (h : create_spend_chart cats tw = Except.ok s) :
    (∃ rest, s = "Percentage spent by category\n" ++ rest)
    ∧ ∀ ch ∈ "Percentage spent by category".data, ch ≠ '\n' := by
  refine ⟨?_, by decide⟩
  unfold create_spend_chart at h
  cases hb : build_array cats tw with
  | error e =>
    rw [hb] at h
    simp [Except.map] at h
  | ok arr =>
    rw [hb] at h
    simp only [Except.map, Except.ok.injEq] at h
    refine ⟨concatAll ((List.range (longestName cats + 12)).map (fun i =>
      rowText arr i (3 * cats.length + 3)
        ++ (if i + 1 < longestName cats + 12 then "\n" else ""))), ?_⟩
    rw [← h]
    rfl

/-- Witness for C9 on one fresh category with class total 1. -/
theorem C9_title_w :
    (∃ rest, (create_spend_chart [noCat] 1).toOption.getD ""
        = "Percentage spent by category\n" ++ rest)
    ∧ ∀ ch ∈ "Percentage spent by category".data, ch ≠ '\n' :=
  C9_title [noCat] 1 _ (by rfl)

/-! ### C4: bucket computation and marker placement -/

theorem withCategory_ne (L : Nat) (tw : ℚ) (k : Nat) (c : Cat) (a : Arr)
    (r cc : Nat) (h : cc ≠ 3 * (k + 1)) :
    withCategory L tw k c a r cc = a r cc := by
  unfold withCategory
  rw [if_neg (fun hc => h hc.1), if_neg (fun hc => h hc.1)]

theorem applyAll_skip (L : Nat) (tw : ℚ) (l : List Cat) (k0 : Nat) (a : Arr)
    (r cc : Nat) (h : ∀ m, k0 ≤ m → m < k0 + l.length → cc ≠ 3 * (m + 1)) :
    applyAll L tw k0 l a r cc = a r cc := by
  induction l generalizing k0 a with
  | nil => rfl
  | cons c rest ih =>
    show applyAll L tw (k0 + 1) rest (withCategory L tw k0 c a) r cc = a r cc
    rw [ih (k0 + 1) (withCategory L tw k0 c a)
      (fun m h1 h2 => h m (by omega) (by simp only [List.length_cons]; omega))]
    exact withCategory_ne L tw k0 c a r cc
      (h k0 (le_refl _) (by simp only [List.length_cons]; omega))

theorem applyAll_cell (L : Nat) (tw : ℚ) (l : List Cat) (k0 k : Nat) (a : Arr)
    (r : Nat) (hr : r ≤ 10) (hk1 : k0 ≤ k) (hk2 : k < k0 + l.length)
    (ha : a r (3 * (k + 1)) = none) :
    applyAll L tw k0 l a r (3 * (k + 1))
      = (if normStart ((L : ℤ) + 12)
            (10 - Int.fdiv (bucketOf (l.getD (k - k0) noCat).amount_withdrawn tw) 10)
            ≤ (r : ℤ)
          then some "o" else none) := by
  induction l generalizing k0 a with
  | nil =>
    exact ((by simp only [List.length_nil] at hk2; omega : False)).elim
  | cons c rest ih =>
    by_cases hk : k = k0
    · subst hk
      rw [Nat.sub_self, List.getD_cons_zero]
      show applyAll L tw (k + 1) rest (withCategory L tw k c a) r (3 * (k + 1)) = _
      rw [applyAll_skip L tw rest (k + 1) _ r _ (fun m h1 h2 => by omega)]
      unfold withCategory
      by_cases hlo : normStart ((L : ℤ) + 12)
          (10 - Int.fdiv (bucketOf c.amount_withdrawn tw) 10) ≤ (r : ℤ)
      · rw [if_pos ⟨rfl, hlo, by omega⟩, if_pos hlo]
      · rw [if_neg (fun hc => hlo hc.2.1),
          if_neg (fun hc => absurd hc.2.1 (by omega)), if_neg hlo]
        exact ha
    · rw [show k - k0 = (k - (k0 + 1)) + 1 from by omega, List.getD_cons_succ]
      show applyAll L tw (k0 + 1) rest (withCategory L tw k0 c a) r (3 * (k + 1)) = _
      refine ih (k0 + 1) (withCategory L tw k0 c a) (by omega)
        (by simp only [List.length_cons] at hk2; omega) ?_
      rw [withCategory_ne L tw k0 c a r _ (by omega)]
      exact ha

theorem baseArr_none (ncols r cc : Nat) (hr : r ≤ 10) (hcc : 3 ≤ cc) :
    withDashes ncols (withPipes (withYAxis emptyArr)) r cc = none := by
  unfold withDashes withPipes withYAxis emptyArr
  rw [if_neg (fun hc => by omega), if_neg (fun hc => by omega),
    if_neg (fun hc => by omega)]

theorem bucketOf_floor_bounds (aw tw : ℚ) (h0 : 0 ≤ aw) (h1 : aw ≤ tw)
    (h2 : 0 < tw) :
    0 ≤ ⌊aw / tw * 100⌋ ∧ ⌊aw / tw * 100⌋ ≤ 100 := by
  constructor
  · exact Int.floor_nonneg.mpr (mul_nonneg (div_nonneg h0 h2.le) (by norm_num))
  · have hq : aw / tw * 100 ≤ 100 := by
      have hd : aw / tw ≤ 1 := (div_le_one h2).mpr h1
      nlinarith
    calc ⌊aw / tw * 100⌋ ≤ ⌊(100 : ℚ)⌋ := Int.floor_le_floor hq
      _ = 100 := by norm_num

/-- C4: with a positive class total and a per-category withdrawn amount
between 0 and that total, the bucket of a category is
`(floor((amountWithdrawn / totalWithdrawn) * 100) // 10) * 10`, and the bar
column of that category carries the marker `o` at axis row `r` (row 0 the
100-row, row 10 the 0-row) exactly when `100 - 10 * r` is at most the
bucket, all higher rows staying blank. -/
theorem C4_chart (cats : List Cat) (tw : ℚ) (k : Nat) (hk : k < cats.length)
    (h0 : 0 ≤ (cats.getD k noCat).amount_withdrawn)
    (h1 : (cats.getD k noCat).amount_withdrawn ≤ tw)
    (h2 : 0 < tw) :
    ∃ arr, build_array cats tw = Except.ok arr
      ∧ ∀ r : Nat, r ≤ 10 →
          (arr r (3 * (k + 1))
            = (if 100 - 10 * (r : ℤ)
                  ≤ bucketOf (cats.getD k noCat).amount_withdrawn tw
                then some "o" else none))
          ∧ (arr r (3 * (k + 1)) = some "o"
              ↔ 100 - 10 * (r : ℤ)
                  ≤ bucketOf (cats.getD k noCat).amount_withdrawn tw) := by
  have hne : ¬ (cats.isEmpty = true) := by
    cases cats with
    | nil => simp at hk
    | cons c rest => simp
  have htw : ¬ (tw = 0) := ne_of_gt h2
  refine ⟨applyAll (longestName cats) tw 0 cats
      (withDashes (3 * cats.length + 3) (withPipes (withYAxis emptyArr))), ?_, ?_⟩
  · unfold build_array
    rw [if_neg hne, if_neg htw]
  · intro r hr
    have hcell := applyAll_cell (longestName cats) tw cats 0 k
      (withDashes (3 * cats.length + 3) (withPipes (withYAxis emptyArr))) r hr
      (Nat.zero_le k) (by omega)
      (baseArr_none (3 * cats.length + 3) r (3 * (k + 1)) hr (by omega))
    rw [Nat.sub_zero] at hcell
    obtain ⟨hb0, hb100⟩ :=
      bucketOf_floor_bounds (cats.getD k noCat).amount_withdrawn tw h0 h1 h2
    have h10 : (0 : ℤ) ≤ 10 := by norm_num
    have e1 : bucketOf (cats.getD k noCat).amount_withdrawn tw
        = (⌊(cats.getD k noCat).amount_withdrawn / tw * 100⌋ / 10) * 10 := by
      unfold bucketOf
      rw [Int.fdiv_eq_ediv _ h10]
    have e2 : Int.fdiv (bucketOf (cats.getD k noCat).amount_withdrawn tw) 10
        = ⌊(cats.getD k noCat).amount_withdrawn / tw * 100⌋ / 10 := by
      rw [e1, Int.fdiv_eq_ediv _ h10, Int.mul_ediv_cancel _ (by norm_num)]
    have hstart : normStart ((longestName cats : ℤ) + 12)
        (10 - Int.fdiv (bucketOf (cats.getD k noCat).amount_withdrawn tw) 10)
        = 10 - ⌊(cats.getD k noCat).amount_withdrawn / tw * 100⌋ / 10 := by
      rw [e2]
      unfold normStart
      rw [if_neg (by omega)]
      exact min_eq_left (by omega)
    rw [hstart] at hcell
    have hiff : ((10 : ℤ)
          - ⌊(cats.getD k noCat).amount_withdrawn / tw * 100⌋ / 10 ≤ (r : ℤ))
        ↔ (100 - 10 * (r : ℤ)
            ≤ bucketOf (cats.getD k noCat).amount_withdrawn tw) := by
      rw [e1]
      omega
    constructor
    · rw [hcell]
      by_cases hc : (10 : ℤ)
          - ⌊(cats.getD k noCat).amount_withdrawn / tw * 100⌋ / 10 ≤ (r : ℤ)
      · rw [if_pos hc, if_pos (hiff.mp hc)]
      · rw [if_neg hc, if_neg (fun hh => hc (hiff.mpr hh))]
    · rw [hcell]
      by_cases hc : (10 : ℤ)
          - ⌊(cats.getD k noCat).amount_withdrawn / tw * 100⌋ / 10 ≤ (r : ℤ)
      · rw [if_pos hc]
        simp only [true_iff, hiff.mp hc]
      · rw [if_neg hc]
        constructor
        · intro hcontra
          exact absurd hcontra (by simp)
        · intro hh
          exact absurd (hiff.mpr hh) hc

/-- Witness for C4 at amountWithdrawn 15, totalWithdrawn 100: the bucket is
10 and the marker condition holds row by row. -/
theorem C4_chart_w :
    bucketOf 15 100 = 10
    ∧ (∃ arr, build_array [⟨"a", 0, 15, []⟩] 100 = Except.ok arr
        ∧ ∀ r : Nat, r ≤ 10 →
            (arr r (3 * (0 + 1))
              = (if 100 - 10 * (r : ℤ)
                    ≤ bucketOf (([⟨"a", 0, 15, []⟩] : List Cat).getD 0 noCat).amount_withdrawn 100
                  then some "o" else none))
            ∧ (arr r (3 * (0 + 1)) = some "o"
                ↔ 100 - 10 * (r : ℤ)
                    ≤ bucketOf (([⟨"a", 0, 15, []⟩] : List Cat).getD 0 noCat).amount_withdrawn 100)) := by
  constructor
  · unfold bucketOf
    rw [show (15 : ℚ) / 100 * 100 = 15 from by norm_num,
      show ⌊(15 : ℚ)⌋ = 15 from by norm_num]
    decide
  · exact C4_chart [⟨"a", 0, 15, []⟩] 100 0 (by decide)
      (by show (0 : ℚ) ≤ 15; norm_num)
      (by show (15 : ℚ) ≤ 100; norm_num)
      (by norm_num)

/-! ### C7: the ledger report -/

theorem digitOf_ne_nl (n : Nat) : digitOf n ≠ '\n' := by
  have hm : n % 10 < "0123456789".data.length := by
    show n % 10 < 10
    exact Nat.mod_lt _ (by norm_num)
  have hmem := getD_mem "0123456789".data (n % 10) '0' hm
  intro h
  unfold digitOf at h
  rw [h] at hmem
  exact absurd hmem (by decide)

theorem natCharsAux_nl : ∀ (fuel n : Nat), ∀ ch ∈ natCharsAux fuel n, ch ≠ '\n' := by
  intro fuel
  induction fuel with
  | zero =>
    intro n ch h
    simp [natCharsAux] at h
  | succ f ih =>
    intro n ch h
    simp only [natCharsAux] at h
    by_cases hn : n < 10
    · rw [if_pos hn, List.mem_singleton] at h
      rw [h]
      exact digitOf_ne_nl n
    · rw [if_neg hn] at h
      rcases List.mem_append.mp h with h1 | h1
      · exact ih (n / 10) ch h1
      · rw [List.mem_singleton] at h1
        rw [h1]
        exact digitOf_ne_nl (n % 10)

theorem natCharsAux_ne_nil (n : Nat) : natCharsAux (n + 1) n ≠ [] := by
  simp only [natCharsAux]
  by_cases hn : n < 10
  · rw [if_pos hn]
    simp
  · rw [if_neg hn]
    simp

theorem intStr_nl (i : ℤ) : ∀ ch ∈ (intStr i).data, ch ≠ '\n' := by
  intro ch h
  unfold intStr at h
  rw [String.data_append] at h
  rcases List.mem_append.mp h with h1 | h1
  · split at h1
    · rw [show ("-" : String).data = ['-'] from rfl, List.mem_singleton] at h1
      rw [h1]
      decide
    · rw [show ("" : String).data = [] from rfl] at h1
      exact absurd h1 (List.not_mem_nil ch)
  · exact natCharsAux_nl _ _ ch h1

theorem intStr_ne_nil (i : ℤ) : (intStr i).data ≠ [] := by
  unfold intStr
  rw [String.data_append]
  intro h
  rcases List.append_eq_nil.mp h with ⟨h1, h2⟩
  exact natCharsAux_ne_nil _ h2

theorem ratStr_nl (q : ℚ) : ∀ ch ∈ (ratStr q).data, ch ≠ '\n' := by
  intro ch h
  unfold ratStr at h
  split at h
  · exact intStr_nl _ ch h
  · rw [String.data_append] at h
    rcases List.mem_append.mp h with h1 | h1
    · rw [String.data_append] at h1
      rcases List.mem_append.mp h1 with h2 | h2
      · exact intStr_nl _ ch h2
      · rw [show ("/" : String).data = ['/'] from rfl, List.mem_singleton] at h2
        rw [h2]
        decide
    · exact natCharsAux_nl _ _ ch h1

theorem ratStr_ne_nil (q : ℚ) : (ratStr q).data ≠ [] := by
  unfold ratStr
  split
  · exact intStr_ne_nil _
  · rw [String.data_append]
    intro h
    rcases List.append_eq_nil.mp h with ⟨h1, h2⟩
    exact natCharsAux_ne_nil _ h2

theorem lastChar_append (l1 l2 : List Char) (h : l2 ≠ []) :
    (l1 ++ l2).getLast? = l2.getLast? := by
  cases l2 with
  | nil => exact absurd rfl h
  | cons a l => exact List.getLast?_append_cons l1 a l

theorem mem_of_getLast {α : Type} : ∀ (l : List α) (a : α),
    l.getLast? = some a → a ∈ l := by
  intro l
  induction l with
  | nil =>
    intro a h
    simp at h
  | cons x xs ih =>
    intro a h
    cases xs with
    | nil =>
      simp at h
      simp [h]
    | cons y ys =>
      rw [List.getLast?_cons_cons] at h
      exact List.mem_cons_of_mem _ (ih a h)

theorem length_pySlice_le (s : String) (n : Nat) : (pySlice s n).length ≤ n := by
  unfold pySlice
  rw [String.length_mk, List.length_take]
  omega

theorem length_pyLjust (s : String) (w : Nat) (f : Char) (h : s.length ≤ w) :
    (pyLjust s w f).length = w := by
  unfold pyLjust
  simp only [String.length_append, String.length_mk, List.length_replicate]
  have h2 : s.data.length ≤ w := h
  omega

theorem length_pyRjust (s : String) (w : Nat) (f : Char) (h : s.length ≤ w) :
    (pyRjust s w f).length = w := by
  unfold pyRjust
  simp only [String.length_append, String.length_mk, List.length_replicate]
  have h2 : s.data.length ≤ w := h
  omega

theorem length_pyCenter30 (s : String) (h : s.length ≤ 30) :
    (pyCenter s 30 '*').length = 30 := by
  unfold pyCenter
  simp only [String.length_append, String.length_mk, List.length_replicate]
  have hband : ((30 - s.length) &&& 30) &&& 1 = 0 := by
    rw [Nat.land_assoc, show ((30 : Nat) &&& 1) = 0 from by decide]
    simp
  rw [hband]
  have hdiv := Nat.div_le_self (30 - s.length) 2
  omega

/-- C7: the report is the 30-wide star-centered name line, then one line per
ledger record in insertion order made of the description cut to 23
characters and left-justified in a 23-wide field followed by the two-decimal
amount cut to 7 characters and right-justified in a 7-wide field, then the
`Total:` line carrying the balance with no enforced width; the whole string
does not end in a newline. -/
theorem C7_report (c : Cat) :
    (strCategory c
      = pyCenter c.name 30 '*' ++ "\n"
          ++ concatAll (c.ledger.map entryLine)
          ++ "Total: " ++ ratStr c.balance)
    ∧ (c.name.length ≤ 30 → (pyCenter c.name 30 '*').length = 30)
    ∧ (∀ e ∈ c.ledger,
        entryLine e
          = pyLjust (pySlice e.description 23) 23 ' '
              ++ pyRjust (pySlice (formatFixed2 e.amount) 7) 7 ' ' ++ "\n"
        ∧ (pyLjust (pySlice e.description 23) 23 ' ').length = 23
        ∧ (pyRjust (pySlice (formatFixed2 e.amount) 7) 7 ' ').length = 7)
    ∧ (strCategory c).data.getLast? ≠ some '\n' := by
  refine ⟨rfl, fun h => length_pyCenter30 c.name h, ?_, ?_⟩
  · intro e _
    exact ⟨rfl, length_pyLjust _ _ _ (length_pySlice_le _ _),
      length_pyRjust _ _ _ (length_pySlice_le _ _)⟩
  · have hdata : (strCategory c).data
        = (pyCenter c.name 30 '*' ++ "\n" ++ concatAll (c.ledger.map entryLine)
            ++ "Total: ").data ++ (ratStr c.balance).data := by
      show (pyCenter c.name 30 '*' ++ "\n" ++ concatAll (c.ledger.map entryLine)
          ++ "Total: " ++ ratStr c.balance).data = _
      exact String.data_append _ _
    rw [hdata, lastChar_append _ _ (ratStr_ne_nil c.balance)]
    intro hcontra
    exact ratStr_nl c.balance '\n' (mem_of_getLast _ _ hcontra) rfl

/-- Witness for C7 at a concrete category whose single record has a
description longer than 23 characters: the name field is 30 wide, the
description field exactly 23 wide and the amount field exactly 7 wide. -/
theorem C7_report_w :
    (pyCenter "Food" 30 '*').length = 30
    ∧ (pyLjust (pySlice "this description is longer than twenty-three characters" 23) 23 ' ').length = 23
    ∧ (pyRjust (pySlice (formatFixed2 5) 7) 7 ' ').length = 7 := by
  have h := C7_report
    ⟨"Food", 5, 0, [⟨5, "this description is longer than twenty-three characters"⟩]⟩
  refine ⟨h.2.1 (by decide), ?_, ?_⟩
  · exact (h.2.2.1 _ (List.mem_singleton.mpr rfl)).2.1
  · exact (h.2.2.1 _ (List.mem_singleton.mpr rfl)).2.2

/-- Witness for C10 at class total 5. -/
theorem C10_empty_w :
    create_spend_chart [] 5
      = Except.error "ValueError: max() arg is an empty sequence" :=
  C10_empty 5
